import Mathlib

/-! Export reconciliation of the ArgoCD operator.

A shallow embedding of `pkg/controller/argocdexport/export.go`:
`generateAWSBucketName`, `generateBackupKey`, `reconcileExport`,
`reconcileExportSecret` and `validateExport`.

Go values are embedded as follows.

* `string` is `String`, `len(s)` is the number of UTF-8 bytes of `s`.
* `[]byte` is a list of bytes; the nil slice and the empty slice are both `[]`
  (the program only ever takes their `len`).
* `map[string][]byte` is `Option (String → Option Bytes)`: `none` is the nil
  map, on which reading yields the zero value and writing is a run-time panic.
* `error` is `Option Error`, `none` being `nil`.
* The API server is a store of secrets indexed by namespace and name. Every
  `Create` and `Update` issued through the client is appended to a log, whether
  or not it succeeds; `validateExport` yields the status updates it issues.
* Randomness and the failures of the collaborators are read from an `Oracle`
  that is fixed for one invocation.
-/

namespace argocdexport

/-! ## Go data -/

/-- Go `[]byte`. -/
abbrev Bytes := List UInt8

/-- Go conversion `[]byte(s)`: the UTF-8 bytes of the string. -/
def bytesOfString (s : String) : Bytes := s.toUTF8.data.toList

/-- Go `len(s)` for a string: its number of bytes. -/
def strLen (s : String) : Nat := s.utf8ByteSize

/-- Go `error` values other than `nil`. -/
structure Error where
  msg : String
deriving DecidableEq, Repr

/-- Go `map[string][]byte`; `none` is the nil map. -/
abbrev DataMap := Option (String → Option Bytes)

/-- Go `m[k]` as an expression: the zero value when the map is nil or has no such key. -/
def DataMap.index (m : DataMap) (k : String) : Bytes :=
  match m with
  | none => []
  | some f => (f k).getD []

/-- Go `m[k] = v`: `none` stands for the panic `assignment to entry in nil map`. -/
def DataMap.assign (m : DataMap) (k : String) (v : Bytes) : Option DataMap :=
  match m with
  | none => none
  | some f => some (some (fun j => if j = k then some v else f j))

/-- The entry of a map at a key, `none` when the map is nil or the key is absent. -/
def DataMap.entry (m : DataMap) (k : String) : Option Bytes :=
  match m with
  | none => none
  | some f => f k

/-! ## Kubernetes objects -/

/-- The part of `metav1.OwnerReference` this code depends on. -/
structure OwnerReference where
  Name : String
  Controller : Bool
deriving DecidableEq, Repr

/-- The part of `metav1.ObjectMeta` this code depends on. -/
structure ObjectMeta where
  Name : String
  Namespace : String
  OwnerReferences : List OwnerReference
deriving DecidableEq, Repr

/-- The storage descriptor `ArgoCDExportStorageSpec`. -/
structure ArgoCDExportStorageSpec where
  Backend : String
deriving DecidableEq, Repr

/-- The `ArgoCDExportSpec`: `Schedule` is a `*string`, `Storage` a pointer. -/
structure ArgoCDExportSpec where
  Schedule : Option String
  Storage : Option ArgoCDExportStorageSpec
deriving DecidableEq, Repr

/-- The `ArgoCDExportStatus`. -/
structure ArgoCDExportStatus where
  Phase : String
deriving DecidableEq, Repr

/-- The custom resource `ArgoCDExport`. -/
structure ArgoCDExport where
  ObjectMeta : ObjectMeta
  Spec : ArgoCDExportSpec
  Status : ArgoCDExportStatus
deriving DecidableEq, Repr

/-- A `corev1.Secret`. -/
structure Secret where
  ObjectMeta : ObjectMeta
  Data : DataMap

/-! ## Constants of package `common` -/

/-- Modelled from the spec: the constant `common.ArgoCDKeyBackupKey`, declared outside
the sources at hand; the spec names the field `backupKey`. -/
def ArgoCDKeyBackupKey : String := "backupKey"

/-- Modelled from the spec: the constant `common.ArgoCDKeyAWSBucketName`, declared outside
the sources at hand; the spec names the field `awsBucketName`. -/
def ArgoCDKeyAWSBucketName : String := "awsBucketName"

/-- Modelled from the spec: the constant `common.ArgoCDExportStorageBackendAWS`, declared
outside the sources at hand; the spec names the backend kind `AWS`. -/
def ArgoCDExportStorageBackendAWS : String := "AWS"

/-- What is fixed across invocations: the password policy constants of package `common`
and the naming collaborator `argoutil.FetchStorageSecretName`, all declared outside the
sources at hand and taken as parameters. -/
structure Deps where
  ArgoCDDefaultBackupKeyLength : Int
  ArgoCDDefaultBackupKeyNumDigits : Int
  ArgoCDDefaultBackupKeyNumSymbols : Int
  FetchStorageSecretName : ArgoCDExport → String

/-- What one invocation draws from its environment: the result of the library call
`password.Generate`, and the errors (if any) with which `SetControllerReference`,
`Create` and `Update` answer. -/
structure Oracle where
  passwordGenerate : Int → Int → Int → Bool → Bool → String × Option Error
  setControllerReferenceErr : Option Error
  createErr : Option Error
  updateErr : Option Error

/-! ## The client and its store -/

/-- What the store keeps of a secret under its namespace and name. -/
structure StoredSecret where
  OwnerReferences : List OwnerReference
  Data : DataMap

/-- The secrets of the API server, by namespace and name. -/
abbrev Store := String → String → Option StoredSecret

/-- A write issued through the client. -/
inductive Write where
  | create (obj : Secret)
  | update (obj : Secret)

/-- The client: the store behind it, and the writes issued so far (oldest first). -/
structure Client where
  store : Store
  writes : List Write

/-- The secret the store holds under a namespace and name, if any. -/
def Store.get (st : Store) (namespace_ name : String) : Option Secret :=
  match st namespace_ name with
  | some s =>
    some { ObjectMeta := { Name := name, Namespace := namespace_,
                           OwnerReferences := s.OwnerReferences },
           Data := s.Data }
  | none => none

/-- The store with the object put under its own namespace and name. -/
def Store.put (st : Store) (obj : Secret) : Store :=
  fun ns n =>
    if ns = obj.ObjectMeta.Namespace ∧ n = obj.ObjectMeta.Name then
      some { OwnerReferences := obj.ObjectMeta.OwnerReferences, Data := obj.Data }
    else st ns n

/-- The call `r.client.Create(ctx, obj)`: logged, and stored unless it fails. -/
def Client.Create (err : Option Error) (cl : Client) (obj : Secret) : Option Error × Client :=
  match err with
  | some e => (some e, { cl with writes := cl.writes ++ [Write.create obj] })
  | none => (none, { store := cl.store.put obj, writes := cl.writes ++ [Write.create obj] })

/-- The call `r.client.Update(ctx, obj)`: logged, and stored unless it fails. -/
def Client.Update (err : Option Error) (cl : Client) (obj : Secret) : Option Error × Client :=
  match err with
  | some e => (some e, { cl with writes := cl.writes ++ [Write.update obj] })
  | none => (none, { store := cl.store.put obj, writes := cl.writes ++ [Write.update obj] })

/-! ## Collaborators of package `argoutil` and of controller-runtime -/

/-- Modelled from the spec: `argoutil.NewSecretWithName`, declared outside the sources at
hand; a fresh secret of the given name in the namespace of the given metadata, with no
data and no owner. -/
def NewSecretWithName (meta : ObjectMeta) (name : String) : Secret :=
  { ObjectMeta := { Name := name, Namespace := meta.Namespace, OwnerReferences := [] },
    Data := none }

/-- Modelled from the spec: `argoutil.IsObjectFound`, declared outside the sources at hand;
looks the object up by name in the namespace, and on success overwrites `obj` with it. -/
def IsObjectFound (cl : Client) (namespace_ name : String) (obj : Secret) : Bool × Secret :=
  match cl.store.get namespace_ name with
  | some found => (true, found)
  | none => (false, obj)

/-- The library call `controllerutil.SetControllerReference`: fails with the error of the
oracle, and otherwise records the owner as the controlling owner of the object, in place
of any earlier reference to that owner. -/
def SetControllerReference (err : Option Error) (owner : ArgoCDExport) (controlled : Secret) :
    Option Error × Secret :=
  match err with
  | some e => (some e, controlled)
  | none =>
    (none, { controlled with
      ObjectMeta := { controlled.ObjectMeta with
        OwnerReferences :=
          controlled.ObjectMeta.OwnerReferences.filter (fun r => r.Name ≠ owner.ObjectMeta.Name)
            ++ [{ Name := owner.ObjectMeta.Name, Controller := true }] } })

/-! ## The functions of `export.go` -/

/-- The AWS bucket name for the given ArgoCDExport. -/
def generateAWSBucketName (cr : ArgoCDExport) : Bytes :=
  bytesOfString cr.ObjectMeta.Name

/-- The backup key for the export process, with the error of `password.Generate`. -/
def generateBackupKey (d : Deps) (o : Oracle) : Bytes × Option Error :=
  match o.passwordGenerate d.ArgoCDDefaultBackupKeyLength d.ArgoCDDefaultBackupKeyNumDigits
      d.ArgoCDDefaultBackupKeyNumSymbols false false with
  | (pass, err) => (bytesOfString pass, err)

/-- How a Go function call ends: it returns its `error`, or the goroutine panics. -/
inductive Outcome where
  | returned (err : Option Error)
  | panicked (msg : String)
deriving DecidableEq, Repr

/-- The message of the Go run-time panic on a write into a nil map. -/
def nilMapPanic : String := "assignment to entry in nil map"

/-- The first block of the found branch (lines 72-80): a missing backup key is generated
and stored in the secret. Yields the secret and the flag `changed`, or how the function
ends. -/
def patchBackupKey (d : Deps) (o : Oracle) (secret : Secret) : Except Outcome (Secret × Bool) :=
  let backupKey := secret.Data.index ArgoCDKeyBackupKey
  if backupKey.length ≤ 0 then
    match generateBackupKey d o with
    | (_, some err) => Except.error (Outcome.returned (some err))
    | (backupKey, none) =>
      match secret.Data.assign ArgoCDKeyBackupKey backupKey with
      | none => Except.error (Outcome.panicked nilMapPanic)
      | some data => Except.ok ({ secret with Data := data }, true)
  else Except.ok (secret, false)

/-- The second block of the found branch (lines 82-89): for the AWS backend a missing
bucket name is derived and stored in the secret. -/
def patchBucketName (cr : ArgoCDExport) (secret : Secret) (changed : Bool) :
    Except Outcome (Secret × Bool) :=
  match cr.Spec.Storage with
  | some storage =>
    if storage.Backend = ArgoCDExportStorageBackendAWS then
      let bucketName := secret.Data.index ArgoCDKeyAWSBucketName
      if bucketName.length ≤ 0 then
        let bucketName := generateAWSBucketName cr
        match secret.Data.assign ArgoCDKeyAWSBucketName bucketName with
        | none => Except.error (Outcome.panicked nilMapPanic)
        | some data => Except.ok ({ secret with Data := data }, true)
      else Except.ok (secret, changed)
    else Except.ok (secret, changed)
  | none => Except.ok (secret, changed)

/-- The function `reconcileExportSecret`: ensures that the Secret used for the export
process is present. -/
def reconcileExportSecret (d : Deps) (o : Oracle) (cr : ArgoCDExport) (cl : Client) :
    Outcome × Client :=
  let name := d.FetchStorageSecretName cr
  let secret := NewSecretWithName cr.ObjectMeta name
  match IsObjectFound cl cr.ObjectMeta.Namespace name secret with
  | (true, secret) =>
    match patchBackupKey d o secret with
    | Except.error out => (out, cl)
    | Except.ok (secret, changed) =>
      match patchBucketName cr secret changed with
      | Except.error out => (out, cl)
      | Except.ok (secret, changed) =>
        if changed then
          match Client.Update o.updateErr cl secret with
          | (err, cl) => (Outcome.returned err, cl)
        else (Outcome.returned none, cl)
  | (false, secret) =>
    match generateBackupKey d o with
    | (_, some err) => (Outcome.returned (some err), cl)
    | (backupKey, none) =>
      let secret := { secret with
        Data := some (fun k =>
          if k = ArgoCDKeyBackupKey then some backupKey
          else if k = ArgoCDKeyAWSBucketName then some (generateAWSBucketName cr)
          else none) }
      match SetControllerReference o.setControllerReferenceErr cr secret with
      | (some err, _) => (Outcome.returned (some err), cl)
      | (none, secret) =>
        match Client.Create o.createErr cl secret with
        | (err, cl) => (Outcome.returned err, cl)

/-- The two job reconcilers of the package, `reconcileJob` and `reconcileCronJob`, declared
outside the sources at hand and taken as parameters: each acts on the client and returns
its `error`. -/
structure JobReconcilers where
  reconcileJob : ArgoCDExport → Client → Option Error × Client
  reconcileCronJob : ArgoCDExport → Client → Option Error × Client

/-- A call made by `reconcileExport` to one of the reconcilers it sequences. -/
inductive Call where
  | reconcileExportSecret
  | reconcileCronJob
  | reconcileJob
deriving DecidableEq, Repr

/-- The function `reconcileExport`: ensures that the resources for the export process are
present. Besides the outcome and the client it yields the calls it made, in order. -/
def reconcileExport (d : Deps) (j : JobReconcilers) (o : Oracle) (cr : ArgoCDExport)
    (cl : Client) : Outcome × Client × List Call :=
  match reconcileExportSecret d o cr cl with
  | (Outcome.panicked msg, cl) => (Outcome.panicked msg, cl, [Call.reconcileExportSecret])
  | (Outcome.returned (some err), cl) =>
    (Outcome.returned (some err), cl, [Call.reconcileExportSecret])
  | (Outcome.returned none, cl) =>
    if (match cr.Spec.Schedule with
        | some schedule => decide (strLen schedule > 0)
        | none => false) then
      match j.reconcileCronJob cr cl with
      | (some err, cl) =>
        (Outcome.returned (some err), cl, [Call.reconcileExportSecret, Call.reconcileCronJob])
      | (none, cl) =>
        (Outcome.returned none, cl, [Call.reconcileExportSecret, Call.reconcileCronJob])
    else
      match j.reconcileJob cr cl with
      | (some err, cl) =>
        (Outcome.returned (some err), cl, [Call.reconcileExportSecret, Call.reconcileJob])
      | (none, cl) =>
        (Outcome.returned none, cl, [Call.reconcileExportSecret, Call.reconcileJob])

/-- The function `validateExport`: ensures that the given ArgoCDExport is valid. Yields the
error, the resource as the function leaves it, and the status updates it issued. The
parameter is the error (if any) with which `r.client.Status().Update` answers. -/
def validateExport (statusUpdateErr : Option Error) (cr : ArgoCDExport) :
    Option Error × ArgoCDExport × List ArgoCDExport :=
  if strLen cr.Status.Phase ≤ 0 then
    let cr := { cr with Status := { cr.Status with Phase := "Pending" } }
    (statusUpdateErr, cr, [cr])
  else (none, cr, [])

/-- Successive invocations of `reconcileExportSecret` on the same resource, one per oracle,
with nothing else touching the store in between; `none` as soon as one of them does not
return `nil`. -/
def reconcileExportSecretRepeat (d : Deps) (cr : ArgoCDExport) :
    List Oracle → Client → Option Client
  | [], cl => some cl
  | o :: os, cl =>
    match reconcileExportSecret d o cr cl with
    | (Outcome.returned none, cl) => reconcileExportSecretRepeat d cr os cl
    | _ => none

/-! ## Vocabulary of the statements -/

/-- Whether the storage descriptor is present and names the AWS backend: the test of
line 82. -/
def storageIsAWS (cr : ArgoCDExport) : Bool :=
  match cr.Spec.Storage with
  | some storage => decide (storage.Backend = ArgoCDExportStorageBackendAWS)
  | none => false

/-- Whether a value read from the secret counts as missing: the tests of lines 73 and 84. -/
def isMissing (v : Option Bytes) : Bool := decide ((v.getD []).length ≤ 0)

/-- The export secret of a resource as the store holds it, if it does. -/
def exportSecret (d : Deps) (cr : ArgoCDExport) (cl : Client) : Option Secret :=
  cl.store.get cr.ObjectMeta.Namespace (d.FetchStorageSecretName cr)

/-- The data of an existing secret after the found branch: `backupKey` becomes the given
key if it was missing, `awsBucketName` becomes the name of the resource if the backend is
AWS and it was missing, every other entry is as before. -/
def patchedData (key : Bytes) (cr : ArgoCDExport) (f : String → Option Bytes) :
    String → Option Bytes :=
  fun k =>
    if k = ArgoCDKeyBackupKey ∧ isMissing (f ArgoCDKeyBackupKey) = true then some key
    else if k = ArgoCDKeyAWSBucketName ∧ storageIsAWS cr = true
        ∧ isMissing (f ArgoCDKeyAWSBucketName) = true then
      some (generateAWSBucketName cr)
    else f k

/-- The writes an invocation issued, given the client before and after it. -/
def issued (before after : Client) : List Write :=
  after.writes.drop before.writes.length

/-- The schedule test of `reconcileExport` (line 51): the schedule is non-nil and the
string it points to has positive length. -/
def hasSchedule (cr : ArgoCDExport) : Bool :=
  match cr.Spec.Schedule with
  | some schedule => decide (0 < strLen schedule)
  | none => false

/-- The `awsBucketName` entry one or more successful reconciles leave behind, given the
export secret before the first of them: the bytes of the name of the resource when the
secret was absent, or when the backend is AWS and the entry was missing; otherwise the
entry as it was. -/
def bucketNameAfter (cr : ArgoCDExport) (before : Option Secret) : Option Bytes :=
  match before with
  | none => some (generateAWSBucketName cr)
  | some s =>
    if storageIsAWS cr = true ∧ isMissing (s.Data.entry ArgoCDKeyAWSBucketName) = true then
      some (generateAWSBucketName cr)
    else s.Data.entry ArgoCDKeyAWSBucketName

/-- The job reconciler `reconcileExport` selects for a resource. -/
def selectedReconciler (j : JobReconcilers) (cr : ArgoCDExport) :
    ArgoCDExport → Client → Option Error × Client :=
  if hasSchedule cr = true then j.reconcileCronJob else j.reconcileJob

/-- The call `reconcileExport` logs for the reconciler it selects. -/
def selectedCall (cr : ArgoCDExport) : Call :=
  if hasSchedule cr = true then Call.reconcileCronJob else Call.reconcileJob

/-! ## Concrete inputs -/

/-- Sample fixed parameters: the secret of a resource is named after it. -/
def sampleDeps : Deps :=
  { ArgoCDDefaultBackupKeyLength := 32
    ArgoCDDefaultBackupKeyNumDigits := 5
    ArgoCDDefaultBackupKeyNumSymbols := 5
    FetchStorageSecretName := fun cr => cr.ObjectMeta.Name ++ "-export" }

/-- An environment in which every collaborator succeeds and the generated password is
`s3cr3t`. -/
def calmOracle : Oracle :=
  { passwordGenerate := fun _ _ _ _ _ => ("s3cr3t", none)
    setControllerReferenceErr := none
    createErr := none
    updateErr := none }

/-- An environment in which `password.Generate` fails. -/
def failingKeyOracle : Oracle :=
  { calmOracle with passwordGenerate := fun _ _ _ _ _ => ("", some { msg := "entropy" }) }

/-- The resource `demo` in namespace `ns1`, without schedule and without storage. -/
def demo : ArgoCDExport :=
  { ObjectMeta := { Name := "demo", Namespace := "ns1", OwnerReferences := [] }
    Spec := { Schedule := none, Storage := none }
    Status := { Phase := "" } }

/-- The resource `demo` with an hourly schedule and the AWS backend. -/
def demoAWS : ArgoCDExport :=
  { demo with Spec := { Schedule := some "0 * * * *",
                        Storage := some { Backend := ArgoCDExportStorageBackendAWS } } }

/-- A client whose store is empty. -/
def emptyClient : Client := { store := fun _ _ => none, writes := [] }

/-- A client whose store holds one secret, under the given name in namespace `ns1`, with
the given data and no owner. -/
def clientWith (name : String) (data : DataMap) : Client :=
  { store := fun ns n =>
      if ns = "ns1" ∧ n = name then some { OwnerReferences := [], Data := data } else none
    writes := [] }

/-- Secret data holding only a backup key. -/
def keyOnly : String → Option Bytes :=
  fun k => if k = ArgoCDKeyBackupKey then some [107] else none

/-- Job reconcilers that succeed and leave a mark in the store, in the namespace of the
resource: `reconcileJob` an object named `job`, `reconcileCronJob` one named `cronjob`. -/
def markingJobs : JobReconcilers :=
  { reconcileJob := fun cr cl =>
      (none, { cl with store := cl.store.put (NewSecretWithName cr.ObjectMeta "job") })
    reconcileCronJob := fun cr cl =>
      (none, { cl with store := cl.store.put (NewSecretWithName cr.ObjectMeta "cronjob") }) }

/-! ## Go strings and bytes -/

theorem bytesOfString_eq_nil (s : String) : bytesOfString s = [] ↔ s = "" := by
  obtain ⟨l⟩ := s
  cases l with
  | nil => simp [bytesOfString, String.toUTF8]
  | cons c cs =>
    have h : String.utf8EncodeChar c ≠ [] := by
      intro h0
      have := String.length_utf8EncodeChar c
      rw [h0] at this
      have hp := Char.utf8Size_pos c
      simp at this
      omega
    constructor
    · intro h1
      simp [bytesOfString, String.toUTF8, h] at h1
    · intro h1
      exact absurd (congrArg String.data h1) (by simp)

theorem strLen_pos (s : String) : 0 < strLen s ↔ s ≠ "" := by
  obtain ⟨l⟩ := s
  cases l with
  | nil => simp [strLen, String.utf8ByteSize, String.utf8ByteSize.go]
  | cons c cs =>
    have hp := Char.utf8Size_pos c
    constructor
    · intro _ h1
      exact absurd (congrArg String.data h1) (by simp)
    · intro _
      simp only [strLen, String.utf8ByteSize, String.utf8ByteSize.go]
      omega

theorem keys_ne : ArgoCDKeyBackupKey ≠ ArgoCDKeyAWSBucketName := by decide

theorem isMissing_iff (v : Option Bytes) : isMissing v = true ↔ v.getD [] = [] := by
  simp [isMissing]

/-! ## The two blocks of the found branch -/

theorem patchBackupKey_data (d : Deps) (o : Oracle) (m : ObjectMeta)
    (f : String → Option Bytes) (key : Bytes) (hgen : generateBackupKey d o = (key, none)) :
    patchBackupKey d o { ObjectMeta := m, Data := some f } =
      Except.ok ({ ObjectMeta := m,
                   Data := some (fun j =>
                     if j = ArgoCDKeyBackupKey ∧ isMissing (f ArgoCDKeyBackupKey) = true
                     then some key else f j) },
                 isMissing (f ArgoCDKeyBackupKey)) := by
  by_cases hk : (f ArgoCDKeyBackupKey).getD [] = []
  · have hm : isMissing (f ArgoCDKeyBackupKey) = true := (isMissing_iff _).2 hk
    simp [patchBackupKey, DataMap.index, DataMap.assign, hgen, hk, hm]
  · have hm : isMissing (f ArgoCDKeyBackupKey) = false := by
      simpa [isMissing] using hk
    simp [patchBackupKey, DataMap.index, hk, hm]

theorem patchBackupKey_fails (d : Deps) (o : Oracle) (s : Secret) (key : Bytes) (e : Error)
    (hk : s.Data.index ArgoCDKeyBackupKey = [])
    (hgen : generateBackupKey d o = (key, some e)) :
    patchBackupKey d o s = Except.error (Outcome.returned (some e)) := by
  simp [patchBackupKey, hk, hgen]

theorem patchBackupKey_nil (d : Deps) (o : Oracle) (m : ObjectMeta) (key : Bytes)
    (hgen : generateBackupKey d o = (key, none)) :
    patchBackupKey d o { ObjectMeta := m, Data := none } =
      Except.error (Outcome.panicked nilMapPanic) := by
  simp [patchBackupKey, DataMap.index, DataMap.assign, hgen]

theorem patchBucketName_data (cr : ArgoCDExport) (m : ObjectMeta)
    (g : String → Option Bytes) (changed : Bool) :
    patchBucketName cr { ObjectMeta := m, Data := some g } changed =
      Except.ok ({ ObjectMeta := m,
                   Data := some (fun j =>
                     if j = ArgoCDKeyAWSBucketName ∧ storageIsAWS cr = true
                        ∧ isMissing (g ArgoCDKeyAWSBucketName) = true
                     then some (generateAWSBucketName cr) else g j) },
                 changed || (storageIsAWS cr && isMissing (g ArgoCDKeyAWSBucketName))) := by
  cases hst : cr.Spec.Storage with
  | none => simp [patchBucketName, hst, storageIsAWS]
  | some st =>
    by_cases hb : st.Backend = ArgoCDExportStorageBackendAWS
    · by_cases hk : (g ArgoCDKeyAWSBucketName).getD [] = []
      · have hm : isMissing (g ArgoCDKeyAWSBucketName) = true := (isMissing_iff _).2 hk
        simp [patchBucketName, hst, storageIsAWS, hb, DataMap.index, DataMap.assign, hk, hm]
      · have hm : isMissing (g ArgoCDKeyAWSBucketName) = false := by
          simpa [isMissing] using hk
        simp [patchBucketName, hst, storageIsAWS, hb, DataMap.index, hk, hm]
    · simp [patchBucketName, hst, storageIsAWS, hb]

theorem patched_compose (key : Bytes) (cr : ArgoCDExport) (f : String → Option Bytes) :
    (fun j =>
      if j = ArgoCDKeyAWSBucketName ∧ storageIsAWS cr = true
          ∧ isMissing ((fun j => if j = ArgoCDKeyBackupKey
              ∧ isMissing (f ArgoCDKeyBackupKey) = true then some key else f j)
                ArgoCDKeyAWSBucketName) = true
      then some (generateAWSBucketName cr)
      else (fun j => if j = ArgoCDKeyBackupKey
              ∧ isMissing (f ArgoCDKeyBackupKey) = true then some key else f j) j)
      = patchedData key cr f := by
  funext j
  have hne := keys_ne
  by_cases h1 : j = ArgoCDKeyBackupKey
  · subst h1
    simp [patchedData, hne]
  · by_cases h2 : j = ArgoCDKeyAWSBucketName
    · subst h2
      simp [patchedData, h1, Ne.symm hne]
    · simp [patchedData, h1, h2]

/-! ## The branches of `reconcileExportSecret` -/

theorem exportSecret_eq_none (d : Deps) (cr : ArgoCDExport) (cl : Client) :
    exportSecret d cr cl = none ↔
      cl.store cr.ObjectMeta.Namespace (d.FetchStorageSecretName cr) = none := by
  unfold exportSecret Store.get
  cases cl.store cr.ObjectMeta.Namespace (d.FetchStorageSecretName cr) <;> simp

theorem exportSecret_eq_some (d : Deps) (cr : ArgoCDExport) (cl : Client) (s : Secret) :
    exportSecret d cr cl = some s ↔
      cl.store cr.ObjectMeta.Namespace (d.FetchStorageSecretName cr)
          = some { OwnerReferences := s.ObjectMeta.OwnerReferences, Data := s.Data }
        ∧ s.ObjectMeta.Name = d.FetchStorageSecretName cr
        ∧ s.ObjectMeta.Namespace = cr.ObjectMeta.Namespace := by
  unfold exportSecret Store.get
  obtain ⟨⟨n, ns, ow⟩, dat⟩ := s
  cases h : cl.store cr.ObjectMeta.Namespace (d.FetchStorageSecretName cr) with
  | none => simp
  | some st =>
    obtain ⟨ow', dat'⟩ := st
    simp only [Option.some.injEq, Secret.mk.injEq, ObjectMeta.mk.injEq, StoredSecret.mk.injEq]
    constructor
    · rintro ⟨⟨h1, h2, h3⟩, h4⟩
      exact ⟨⟨h3, h4⟩, h1.symm, h2.symm⟩
    · rintro ⟨⟨h3, h4⟩, h1, h2⟩
      exact ⟨⟨h1.symm, h2.symm, h3⟩, h4⟩

theorem found_genFails (d : Deps) (o : Oracle) (cr : ArgoCDExport) (cl : Client)
    (s : StoredSecret) (e : Error)
    (hs : cl.store cr.ObjectMeta.Namespace (d.FetchStorageSecretName cr) = some s)
    (hk : s.Data.index ArgoCDKeyBackupKey = [])
    (hg : (generateBackupKey d o).2 = some e) :
    reconcileExportSecret d o cr cl = (Outcome.returned (some e), cl) := by
  rcases hgen : generateBackupKey d o with ⟨key, err⟩
  rw [hgen] at hg
  simp only at hg
  subst hg
  have hp := patchBackupKey_fails d o
    { ObjectMeta := { Name := d.FetchStorageSecretName cr, Namespace := cr.ObjectMeta.Namespace,
                      OwnerReferences := s.OwnerReferences },
      Data := s.Data } key e hk hgen
  simp [reconcileExportSecret, IsObjectFound, Store.get, hs, hp]

theorem found_nilData (d : Deps) (o : Oracle) (cr : ArgoCDExport) (cl : Client)
    (owners : List OwnerReference)
    (hs : cl.store cr.ObjectMeta.Namespace (d.FetchStorageSecretName cr)
      = some { OwnerReferences := owners, Data := none })
    (hg : (generateBackupKey d o).2 = none) :
    reconcileExportSecret d o cr cl = (Outcome.panicked nilMapPanic, cl) := by
  rcases hgen : generateBackupKey d o with ⟨key, err⟩
  rw [hgen] at hg
  simp only at hg
  subst hg
  simp [reconcileExportSecret, IsObjectFound, Store.get, hs, patchBackupKey_nil d o _ key hgen]

theorem found_data (d : Deps) (o : Oracle) (cr : ArgoCDExport) (cl : Client)
    (owners : List OwnerReference) (f : String → Option Bytes)
    (hs : cl.store cr.ObjectMeta.Namespace (d.FetchStorageSecretName cr)
      = some { OwnerReferences := owners, Data := some f })
    (hg : isMissing (f ArgoCDKeyBackupKey) = true → (generateBackupKey d o).2 = none) :
    reconcileExportSecret d o cr cl =
      if isMissing (f ArgoCDKeyBackupKey) = true ∨
          (storageIsAWS cr = true ∧ isMissing (f ArgoCDKeyAWSBucketName) = true) then
        (Outcome.returned o.updateErr,
          (Client.Update o.updateErr cl
            { ObjectMeta := { Name := d.FetchStorageSecretName cr,
                              Namespace := cr.ObjectMeta.Namespace,
                              OwnerReferences := owners },
              Data := some (patchedData (generateBackupKey d o).1 cr f) }).2)
      else (Outcome.returned none, cl) := by
  have hupd : ∀ (e : Option Error) (obj : Secret), (Client.Update e cl obj).1 = e := by
    intro e obj
    cases e <;> rfl
  by_cases hk : isMissing (f ArgoCDKeyBackupKey) = true
  · rcases hgen : generateBackupKey d o with ⟨key, err⟩
    have herr := hg hk
    rw [hgen] at herr
    simp only at herr
    subst herr
    simp only [reconcileExportSecret, IsObjectFound, Store.get, hs,
      patchBackupKey_data d o _ f key hgen, patchBucketName_data, patched_compose]
    simp [hk, hupd]
  · have hk' : (f ArgoCDKeyBackupKey).getD [] ≠ [] := fun h => hk ((isMissing_iff _).2 h)
    have hkf : isMissing (f ArgoCDKeyBackupKey) = false := by simpa using hk
    have hpb : ∀ m : ObjectMeta, patchBackupKey d o { ObjectMeta := m, Data := some f }
        = Except.ok ({ ObjectMeta := m, Data := some f }, false) := by
      intro m
      simp [patchBackupKey, DataMap.index, hk']
    have hpd : ∀ key : Bytes,
        (fun j => if j = ArgoCDKeyAWSBucketName ∧ storageIsAWS cr = true
            ∧ isMissing (f ArgoCDKeyAWSBucketName) = true
          then some (generateAWSBucketName cr) else f j) = patchedData key cr f := by
      intro key
      funext j
      simp [patchedData, hkf]
    simp only [reconcileExportSecret, IsObjectFound, Store.get, hs, hpb, patchBucketName_data,
      hpd (generateBackupKey d o).1, hkf, Bool.false_or, false_or, hupd, Bool.and_eq_true]
    simp

theorem absent_result (d : Deps) (o : Oracle) (cr : ArgoCDExport) (cl : Client)
    (hs : cl.store cr.ObjectMeta.Namespace (d.FetchStorageSecretName cr) = none) :
    reconcileExportSecret d o cr cl =
      match (generateBackupKey d o).2 with
      | some e => (Outcome.returned (some e), cl)
      | none =>
        match o.setControllerReferenceErr with
        | some e => (Outcome.returned (some e), cl)
        | none =>
          (Outcome.returned o.createErr,
            (Client.Create o.createErr cl
              { ObjectMeta := { Name := d.FetchStorageSecretName cr,
                                Namespace := cr.ObjectMeta.Namespace,
                                OwnerReferences :=
                                  [{ Name := cr.ObjectMeta.Name, Controller := true }] },
                Data := some (fun k =>
                  if k = ArgoCDKeyBackupKey then some (generateBackupKey d o).1
                  else if k = ArgoCDKeyAWSBucketName then some (bytesOfString cr.ObjectMeta.Name)
                  else none) }).2) := by
  have hcre : ∀ (e : Option Error) (obj : Secret), (Client.Create e cl obj).1 = e := by
    intro e obj
    cases e <;> rfl
  rcases hgen : generateBackupKey d o with ⟨key, err⟩
  cases err with
  | some e => simp [reconcileExportSecret, IsObjectFound, Store.get, hs, hgen]
  | none =>
    cases hset : o.setControllerReferenceErr with
    | some e =>
      simp [reconcileExportSecret, IsObjectFound, Store.get, hs, hgen, hset,
        SetControllerReference]
    | none =>
      simp [reconcileExportSecret, IsObjectFound, Store.get, hs, hgen, hset,
        SetControllerReference, NewSecretWithName, hcre, generateAWSBucketName]

/-! ## The client log -/

theorem issued_self (cl : Client) : issued cl cl = [] := by
  simp [issued]

theorem issued_update (e : Option Error) (cl : Client) (obj : Secret) :
    issued cl (Client.Update e cl obj).2 = [Write.update obj] := by
  cases e <;> simp [issued, Client.Update]

theorem issued_create (e : Option Error) (cl : Client) (obj : Secret) :
    issued cl (Client.Create e cl obj).2 = [Write.create obj] := by
  cases e <;> simp [issued, Client.Create]

theorem store_update_fail (e : Error) (cl : Client) (obj : Secret) :
    (Client.Update (some e) cl obj).2.store = cl.store := rfl

theorem patchedData_populated (key : Bytes) (cr : ArgoCDExport) (f : String → Option Bytes)
    (k : String) (v : Bytes) (hk : f k = some v) (hv : v ≠ []) :
    patchedData key cr f k = some v := by
  have hm : isMissing (some v) = false := by
    simpa [isMissing] using hv
  unfold patchedData
  by_cases h1 : k = ArgoCDKeyBackupKey
  · subst h1
    simp [hm, hk, keys_ne]
  · by_cases h2 : k = ArgoCDKeyAWSBucketName
    · subst h2
      simp [h1, hm, hk]
    · simp [h1, h2, hk]

/-- C1. Non-overwrite: when the export secret exists, an entry of its data that holds a
non-empty value before `reconcileExportSecret` holds the same value in every object the
invocation passes to `Update` and in the store afterwards, whatever the invocation returns
and whatever the environment (key generator included) answers. -/
theorem reconcileExportSecret_never_overwrites (d : Deps) (o : Oracle) (cr : ArgoCDExport)
    (cl : Client) (s : Secret) (k : String) (v : Bytes)
    (hs : exportSecret d cr cl = some s)
    (hk : s.Data.entry k = some v) (hv : v ≠ []) :
    (∀ obj, Write.update obj ∈ issued cl (reconcileExportSecret d o cr cl).2 →
        obj.Data.entry k = some v)
    ∧ ∃ s', exportSecret d cr (reconcileExportSecret d o cr cl).2 = some s'
        ∧ s'.Data.entry k = some v := by
  obtain ⟨hst, hn, hns⟩ := (exportSecret_eq_some d cr cl s).1 hs
  obtain ⟨⟨sn, sns, owners⟩, data⟩ := s
  simp only at hst hn hns hk
  cases data with
  | none => simp [DataMap.entry] at hk
  | some f =>
    have hfk : f k = some v := hk
    by_cases hfail : isMissing (f ArgoCDKeyBackupKey) = true ∧ (generateBackupKey d o).2 ≠ none
    · obtain ⟨hm, hne⟩ := hfail
      obtain ⟨e, he⟩ := Option.ne_none_iff_exists'.1 hne
      have hidx : DataMap.index (some f) ArgoCDKeyBackupKey = [] := (isMissing_iff _).1 hm
      rw [found_genFails d o cr cl _ e hst hidx he]
      refine ⟨?_, _, hs, hk⟩
      intro obj hobj
      simp [issued_self] at hobj
    · have hg : isMissing (f ArgoCDKeyBackupKey) = true → (generateBackupKey d o).2 = none := by
        intro hm
        by_contra hne
        exact hfail ⟨hm, hne⟩
      rw [found_data d o cr cl owners f hst hg]
      split
      · refine ⟨?_, ?_⟩
        · intro obj hobj
          rw [issued_update] at hobj
          simp only [List.mem_singleton, Write.update.injEq] at hobj
          subst hobj
          exact patchedData_populated _ cr f k v hfk hv
        · cases hu : o.updateErr with
          | some e =>
            refine ⟨{ ObjectMeta := { Name := sn, Namespace := sns, OwnerReferences := owners },
                      Data := some f }, ?_, hk⟩
            simpa [exportSecret, store_update_fail] using hs
          | none =>
            refine ⟨{ ObjectMeta := { Name := d.FetchStorageSecretName cr,
                                      Namespace := cr.ObjectMeta.Namespace,
                                      OwnerReferences := owners },
                      Data := some (patchedData (generateBackupKey d o).1 cr f) }, ?_, ?_⟩
            · simp [exportSecret, Store.get, Client.Update, Store.put]
            · exact patchedData_populated _ cr f k v hfk hv
      · refine ⟨?_, _, hs, hk⟩
        intro obj hobj
        simp [issued_self] at hobj

/-- Witness of C1: the backup key `[107]` of an existing secret survives a reconcile of the
AWS resource `demo` that adds the bucket name. -/
theorem reconcileExportSecret_never_overwrites_witness :
    (∀ obj, Write.update obj ∈
        issued (clientWith "demo-export" (some keyOnly))
          (reconcileExportSecret sampleDeps calmOracle demoAWS
            (clientWith "demo-export" (some keyOnly))).2 →
        obj.Data.entry ArgoCDKeyBackupKey = some [107])
    ∧ ∃ s', exportSecret sampleDeps demoAWS
          (reconcileExportSecret sampleDeps calmOracle demoAWS
            (clientWith "demo-export" (some keyOnly))).2 = some s'
        ∧ s'.Data.entry ArgoCDKeyBackupKey = some [107] :=
  reconcileExportSecret_never_overwrites sampleDeps calmOracle demoAWS
    (clientWith "demo-export" (some keyOnly))
    { ObjectMeta := { Name := "demo-export", Namespace := "ns1", OwnerReferences := [] },
      Data := some keyOnly }
    ArgoCDKeyBackupKey [107] (by rfl) (by rfl) (by decide)

/-- C6. Create path: when the export secret is not found and both key generation and
`SetControllerReference` succeed, `reconcileExportSecret` returns the result of `Create`
and issues exactly one write, a `Create` of a secret named and placed as the export secret
of the resource, whose data is exactly the two entries `backupKey` (the generated key) and
`awsBucketName` (the bytes of the name of the resource), whatever the storage backend, and
whose single owner reference is the resource as controller; when the `Create` succeeds the
store holds that secret. `generateAWSBucketName` depends on the name of the resource only
and returns its bytes. -/
theorem reconcileExportSecret_creates (d : Deps) (o : Oracle) (cr : ArgoCDExport) (cl : Client)
    (habs : exportSecret d cr cl = none)
    (hgen : (generateBackupKey d o).2 = none)
    (hset : o.setControllerReferenceErr = none) :
    (∃ obj : Secret,
      (reconcileExportSecret d o cr cl).1 = Outcome.returned o.createErr
      ∧ issued cl (reconcileExportSecret d o cr cl).2 = [Write.create obj]
      ∧ obj.Data = some (fun k =>
          if k = ArgoCDKeyBackupKey then some (generateBackupKey d o).1
          else if k = ArgoCDKeyAWSBucketName then some (bytesOfString cr.ObjectMeta.Name)
          else none)
      ∧ obj.ObjectMeta.OwnerReferences = [{ Name := cr.ObjectMeta.Name, Controller := true }]
      ∧ obj.ObjectMeta.Name = d.FetchStorageSecretName cr
      ∧ obj.ObjectMeta.Namespace = cr.ObjectMeta.Namespace
      ∧ (o.createErr = none →
          exportSecret d cr (reconcileExportSecret d o cr cl).2 = some obj))
    ∧ (∀ cr1 cr2 : ArgoCDExport, cr1.ObjectMeta.Name = cr2.ObjectMeta.Name →
        generateAWSBucketName cr1 = generateAWSBucketName cr2)
    ∧ generateAWSBucketName cr = bytesOfString cr.ObjectMeta.Name := by
  have hst := (exportSecret_eq_none d cr cl).1 habs
  refine ⟨?_, ?_, rfl⟩
  · rw [absent_result d o cr cl hst, hgen, hset]
    refine ⟨_, rfl, issued_create _ _ _, rfl, rfl, rfl, rfl, ?_⟩
    intro hc
    rw [hc]
    simp [exportSecret, Store.get, Client.Create, Store.put]
  · intro cr1 cr2 h
    simp [generateAWSBucketName, h]

/-- Witness of C6: the resource `demo`, without storage, on an empty store. -/
theorem reconcileExportSecret_creates_witness :
    (reconcileExportSecret sampleDeps calmOracle demo emptyClient).1 = Outcome.returned none
    ∧ ((exportSecret sampleDeps demo
          (reconcileExportSecret sampleDeps calmOracle demo emptyClient).2).map
        (fun s => s.Data.entry ArgoCDKeyAWSBucketName)) = some (some [100, 101, 109, 111]) := by
  obtain ⟨⟨obj, hret, _, hdata, _, _, _, hstore⟩, _, _⟩ :=
    reconcileExportSecret_creates sampleDeps calmOracle demo emptyClient
      (by rfl) (by rfl) (by rfl)
  refine ⟨hret, ?_⟩
  rw [hstore rfl, Option.map_some', hdata]
  decide

/-- C9. Failure atomicity: an error of key generation, when the key is needed (secret absent,
or found with a missing `backupKey`), and an error of `SetControllerReference` on the create
path are returned as they are, with no write issued and the store unchanged; an error of the
`Create` or `Update` that was issued is returned as it is and leaves the store unchanged. -/
theorem reconcileExportSecret_failure_atomic (d : Deps) (o : Oracle) (cr : ArgoCDExport)
    (cl : Client) :
    (∀ e, (generateBackupKey d o).2 = some e →
        (exportSecret d cr cl = none ∨
          ∃ s, exportSecret d cr cl = some s ∧ s.Data.index ArgoCDKeyBackupKey = []) →
        reconcileExportSecret d o cr cl = (Outcome.returned (some e), cl))
    ∧ (∀ e, exportSecret d cr cl = none → (generateBackupKey d o).2 = none →
        o.setControllerReferenceErr = some e →
        reconcileExportSecret d o cr cl = (Outcome.returned (some e), cl))
    ∧ (∀ e obj, Write.create obj ∈ issued cl (reconcileExportSecret d o cr cl).2 →
        o.createErr = some e →
        (reconcileExportSecret d o cr cl).1 = Outcome.returned (some e)
          ∧ (reconcileExportSecret d o cr cl).2.store = cl.store)
    ∧ (∀ e obj, Write.update obj ∈ issued cl (reconcileExportSecret d o cr cl).2 →
        o.updateErr = some e →
        (reconcileExportSecret d o cr cl).1 = Outcome.returned (some e)
          ∧ (reconcileExportSecret d o cr cl).2.store = cl.store) := by
  refine ⟨?_, ?_, ?_, ?_⟩
  · intro e hg hneed
    rcases hneed with habs | ⟨s, hs, hk⟩
    · rw [absent_result d o cr cl ((exportSecret_eq_none d cr cl).1 habs), hg]
    · exact found_genFails d o cr cl _ e ((exportSecret_eq_some d cr cl s).1 hs).1 hk hg
  · intro e habs hg hset
    rw [absent_result d o cr cl ((exportSecret_eq_none d cr cl).1 habs), hg, hset]
  · intro e obj hmem hc
    cases hst : cl.store cr.ObjectMeta.Namespace (d.FetchStorageSecretName cr) with
    | none =>
      rw [absent_result d o cr cl hst] at hmem ⊢
      cases hg : (generateBackupKey d o).2 with
      | some e' => rw [hg] at hmem; simp [issued_self] at hmem
      | none =>
        cases hset : o.setControllerReferenceErr with
        | some e' => rw [hg, hset] at hmem; simp [issued_self] at hmem
        | none => simp [hc, Client.Create]
    | some st =>
      obtain ⟨owners, data⟩ := st
      cases data with
      | none =>
        cases hg : (generateBackupKey d o).2 with
        | some e' =>
          rw [found_genFails d o cr cl _ e' hst rfl hg] at hmem
          simp [issued_self] at hmem
        | none =>
          rw [found_nilData d o cr cl owners hst hg] at hmem
          simp [issued_self] at hmem
      | some f =>
        by_cases hfail : isMissing (f ArgoCDKeyBackupKey) = true
            ∧ (generateBackupKey d o).2 ≠ none
        · obtain ⟨hm, hne⟩ := hfail
          obtain ⟨e', he'⟩ := Option.ne_none_iff_exists'.1 hne
          rw [found_genFails d o cr cl _ e' hst ((isMissing_iff _).1 hm) he'] at hmem
          simp [issued_self] at hmem
        · have hg : isMissing (f ArgoCDKeyBackupKey) = true →
              (generateBackupKey d o).2 = none := by
            intro hm
            by_contra hne
            exact hfail ⟨hm, hne⟩
          rw [found_data d o cr cl owners f hst hg] at hmem
          split at hmem
          · rw [issued_update] at hmem
            simp at hmem
          · simp [issued_self] at hmem
  · intro e obj hmem hu
    cases hst : cl.store cr.ObjectMeta.Namespace (d.FetchStorageSecretName cr) with
    | none =>
      rw [absent_result d o cr cl hst] at hmem
      cases hg : (generateBackupKey d o).2 with
      | some e' => rw [hg] at hmem; simp [issued_self] at hmem
      | none =>
        cases hset : o.setControllerReferenceErr with
        | some e' => rw [hg, hset] at hmem; simp [issued_self] at hmem
        | none =>
          rw [hg, hset] at hmem
          simp only at hmem
          rw [issued_create] at hmem
          simp at hmem
    | some st =>
      obtain ⟨owners, data⟩ := st
      cases data with
      | none =>
        cases hg : (generateBackupKey d o).2 with
        | some e' =>
          rw [found_genFails d o cr cl _ e' hst rfl hg] at hmem
          simp [issued_self] at hmem
        | none =>
          rw [found_nilData d o cr cl owners hst hg] at hmem
          simp [issued_self] at hmem
      | some f =>
        by_cases hfail : isMissing (f ArgoCDKeyBackupKey) = true
            ∧ (generateBackupKey d o).2 ≠ none
        · obtain ⟨hm, hne⟩ := hfail
          obtain ⟨e', he'⟩ := Option.ne_none_iff_exists'.1 hne
          rw [found_genFails d o cr cl _ e' hst ((isMissing_iff _).1 hm) he'] at hmem
          simp [issued_self] at hmem
        · have hg : isMissing (f ArgoCDKeyBackupKey) = true →
              (generateBackupKey d o).2 = none := by
            intro hm
            by_contra hne
            exact hfail ⟨hm, hne⟩
          rw [found_data d o cr cl owners f hst hg] at hmem ⊢
          split
          · simp [hu, Client.Update]
          · rename_i hno
            rw [if_neg hno] at hmem
            simp [issued_self] at hmem

/-- Witness of C9: key generation fails while the resource `demo` has no secret yet. -/
theorem reconcileExportSecret_failure_atomic_witness :
    reconcileExportSecret sampleDeps failingKeyOracle demo emptyClient
      = (Outcome.returned (some { msg := "entropy" }), emptyClient) :=
  (reconcileExportSecret_failure_atomic sampleDeps failingKeyOracle demo emptyClient).1
    { msg := "entropy" } (by rfl) (Or.inl (by rfl))

/-- C10. The found path on a secret whose data map is nil: whenever key generation succeeds,
the assignment of line 78 writes into the nil map, so `reconcileExportSecret` ends in the
run-time panic `assignment to entry in nil map` instead of returning, having issued no
write. -/
theorem reconcileExportSecret_nil_data_panics (d : Deps) (o : Oracle) (cr : ArgoCDExport)
    (cl : Client) (s : Secret)
    (hs : exportSecret d cr cl = some s) (hnil : s.Data = none)
    (hgen : (generateBackupKey d o).2 = none) :
    reconcileExportSecret d o cr cl = (Outcome.panicked nilMapPanic, cl) := by
  obtain ⟨hst, _, _⟩ := (exportSecret_eq_some d cr cl s).1 hs
  rw [hnil] at hst
  exact found_nilData d o cr cl _ hst hgen

/-- Witness of C10: the resource `demo` whose secret exists with no data. -/
theorem reconcileExportSecret_nil_data_panics_witness :
    reconcileExportSecret sampleDeps calmOracle demo (clientWith "demo-export" none)
      = (Outcome.panicked nilMapPanic, clientWith "demo-export" none) :=
  reconcileExportSecret_nil_data_panics sampleDeps calmOracle demo
    (clientWith "demo-export" none)
    { ObjectMeta := { Name := "demo-export", Namespace := "ns1", OwnerReferences := [] },
      Data := none }
    (by rfl) rfl (by rfl)

/-- C7, at a failing input. The AWS resource `demo` has an export secret without data, so
`backupKey` is absent, and key generation succeeds: the found path ought to issue exactly
one `Update`, yet `reconcileExportSecret` issues no write and ends in the run-time panic
`assignment to entry in nil map`. -/
theorem reconcileExportSecret_found_without_data_issues_no_update :
    (exportSecret sampleDeps demoAWS (clientWith "demo-export" none)).isSome = true
    ∧ ((exportSecret sampleDeps demoAWS (clientWith "demo-export" none)).map
        (fun s => s.Data.entry ArgoCDKeyBackupKey)) = some none
    ∧ (generateBackupKey sampleDeps calmOracle).2 = none
    ∧ (reconcileExportSecret sampleDeps calmOracle demoAWS (clientWith "demo-export" none)).1
        = Outcome.panicked nilMapPanic
    ∧ (issued (clientWith "demo-export" none)
        (reconcileExportSecret sampleDeps calmOracle demoAWS
          (clientWith "demo-export" none)).2).length = 0 := by
  refine ⟨by rfl, by rfl, by rfl, by rfl, by rfl⟩

/-- The found path on a secret whose data map is not nil:
no `Create` is ever issued; when key generation does not fail, exactly one `Update` is
issued if `backupKey` is missing or the backend is AWS and `awsBucketName` is missing, and
otherwise no write is issued and `nil` is returned; the updated object is the found secret
with its data patched in the missing entries only. -/
theorem reconcileExportSecret_found_patches (d : Deps) (o : Oracle) (cr : ArgoCDExport)
    (cl : Client) (s : Secret) (f : String → Option Bytes)
    (hs : exportSecret d cr cl = some s) (hdata : s.Data = some f)
    (hgen : (generateBackupKey d o).2 = none) :
    (∀ obj, Write.create obj ∉ issued cl (reconcileExportSecret d o cr cl).2)
    ∧ (isMissing (f ArgoCDKeyBackupKey) = true ∨
        (storageIsAWS cr = true ∧ isMissing (f ArgoCDKeyAWSBucketName) = true) →
        (reconcileExportSecret d o cr cl).1 = Outcome.returned o.updateErr
        ∧ issued cl (reconcileExportSecret d o cr cl).2
            = [Write.update { s with Data := some (patchedData (generateBackupKey d o).1 cr f) }])
    ∧ (¬ (isMissing (f ArgoCDKeyBackupKey) = true ∨
        (storageIsAWS cr = true ∧ isMissing (f ArgoCDKeyAWSBucketName) = true)) →
        reconcileExportSecret d o cr cl = (Outcome.returned none, cl)) := by
  obtain ⟨hst, hn, hns⟩ := (exportSecret_eq_some d cr cl s).1 hs
  obtain ⟨⟨sn, sns, owners⟩, data⟩ := s
  simp only at hst hn hns hdata
  subst hdata hn hns
  rw [found_data d o cr cl owners f hst (fun _ => hgen)]
  refine ⟨?_, ?_, ?_⟩
  · intro obj hmem
    split at hmem
    · rw [issued_update] at hmem
      simp at hmem
    · simp [issued_self] at hmem
  · intro h
    rw [if_pos h]
    exact ⟨rfl, issued_update _ _ _⟩
  · intro h
    rw [if_neg h]

/-! ## `reconcileExport` and `validateExport` -/

theorem strLen_le_zero (s : String) : strLen s ≤ 0 ↔ s = "" := by
  have h := strLen_pos s
  constructor
  · intro h0
    by_contra hne
    have := h.2 hne
    omega
  · intro h0
    by_contra hlt
    exact (h.1 (by omega)) h0

theorem validateExport_empty (e : Option Error) (cr : ArgoCDExport)
    (h : cr.Status.Phase = "") :
    validateExport e cr =
      (e, { cr with Status := { cr.Status with Phase := "Pending" } },
        [{ cr with Status := { cr.Status with Phase := "Pending" } }]) := by
  have h0 : strLen cr.Status.Phase ≤ 0 := (strLen_le_zero _).2 h
  simp only [validateExport, h0, if_true]

theorem validateExport_nonempty (e : Option Error) (cr : ArgoCDExport)
    (h : cr.Status.Phase ≠ "") :
    validateExport e cr = (none, cr, []) := by
  have h0 : ¬ strLen cr.Status.Phase ≤ 0 := fun h1 => h ((strLen_le_zero _).1 h1)
  simp only [validateExport, h0, if_false]

theorem hasSchedule_iff (cr : ArgoCDExport) :
    hasSchedule cr = true ↔ ∃ s, cr.Spec.Schedule = some s ∧ 0 < strLen s := by
  unfold hasSchedule
  cases cr.Spec.Schedule with
  | none => simp
  | some s => simp

theorem not_hasSchedule_iff (cr : ArgoCDExport) :
    hasSchedule cr = false ↔ cr.Spec.Schedule = none ∨ cr.Spec.Schedule = some "" := by
  unfold hasSchedule
  cases cr.Spec.Schedule with
  | none => simp
  | some s =>
    have h := strLen_pos s
    by_cases hs : s = ""
    · subst hs
      have h0 : strLen "" = 0 := by decide
      simp [h0]
    · simp [hs, h.2 hs]

theorem reconcileExport_after_secret (d : Deps) (j : JobReconcilers) (o : Oracle)
    (cr : ArgoCDExport) (cl : Client)
    (hsec : (reconcileExportSecret d o cr cl).1 = Outcome.returned none) :
    reconcileExport d j o cr cl =
      (Outcome.returned (selectedReconciler j cr cr (reconcileExportSecret d o cr cl).2).1,
        (selectedReconciler j cr cr (reconcileExportSecret d o cr cl).2).2,
        [Call.reconcileExportSecret, selectedCall cr]) := by
  rcases hr : reconcileExportSecret d o cr cl with ⟨out, cl1⟩
  rw [hr] at hsec
  simp only at hsec
  subst hsec
  by_cases hsch : hasSchedule cr = true
  · have hc : (match cr.Spec.Schedule with
        | some schedule => decide (strLen schedule > 0)
        | none => false) = true := hsch
    simp only [reconcileExport, hr, hc, selectedReconciler, selectedCall, hsch, if_true]
    rcases j.reconcileCronJob cr cl1 with ⟨err, cl2⟩
    cases err <;> rfl
  · have hc : ¬ ((match cr.Spec.Schedule with
        | some schedule => decide (strLen schedule > 0)
        | none => false) = true) := hsch
    simp only [reconcileExport, hr, hc, selectedReconciler, selectedCall, hsch, if_false,
      Bool.false_eq_true]
    rcases j.reconcileJob cr cl1 with ⟨err, cl2⟩
    cases err <;> rfl

theorem reconcileExport_secret_fails (d : Deps) (j : JobReconcilers) (o : Oracle)
    (cr : ArgoCDExport) (cl : Client) (e : Error)
    (hsec : (reconcileExportSecret d o cr cl).1 = Outcome.returned (some e)) :
    reconcileExport d j o cr cl =
      (Outcome.returned (some e), (reconcileExportSecret d o cr cl).2,
        [Call.reconcileExportSecret]) := by
  rcases hr : reconcileExportSecret d o cr cl with ⟨out, cl1⟩
  rw [hr] at hsec
  simp only at hsec
  subst hsec
  simp [reconcileExport, hr]

theorem reconcileExport_secret_panics (d : Deps) (j : JobReconcilers) (o : Oracle)
    (cr : ArgoCDExport) (cl : Client) (msg : String)
    (hsec : (reconcileExportSecret d o cr cl).1 = Outcome.panicked msg) :
    reconcileExport d j o cr cl =
      (Outcome.panicked msg, (reconcileExportSecret d o cr cl).2,
        [Call.reconcileExportSecret]) := by
  rcases hr : reconcileExportSecret d o cr cl with ⟨out, cl1⟩
  rw [hr] at hsec
  simp only at hsec
  subst hsec
  simp [reconcileExport, hr]

/-- C4. Mutual exclusivity: when `reconcileExportSecret` succeeds, `reconcileExport` applies,
to the client the secret step left, exactly one of `reconcileCronJob` and `reconcileJob`,
exactly once, and its whole result (outcome, client, calls) is that of this one
application: `reconcileCronJob` when `Spec.Schedule` is non-nil and points to a string of
positive length, and then the pass is the same whatever `reconcileJob` is; `reconcileJob`
when the schedule is nil or the empty string, and then the pass is the same whatever
`reconcileCronJob` is. The two cases exclude each other and cover every resource; two
passes on resources with the same schedule make the same calls, whatever the storage, the
phase, the store, the collaborators and the environment. -/
theorem reconcileExport_mutually_exclusive (d : Deps) (j : JobReconcilers) (o : Oracle)
    (cr : ArgoCDExport) (cl : Client)
    (hsec : (reconcileExportSecret d o cr cl).1 = Outcome.returned none) :
    ((∃ s, cr.Spec.Schedule = some s ∧ 0 < strLen s) →
        reconcileExport d j o cr cl =
          (Outcome.returned (j.reconcileCronJob cr (reconcileExportSecret d o cr cl).2).1,
            (j.reconcileCronJob cr (reconcileExportSecret d o cr cl).2).2,
            [Call.reconcileExportSecret, Call.reconcileCronJob])
        ∧ ∀ other : ArgoCDExport → Client → Option Error × Client,
            reconcileExport d { j with reconcileJob := other } o cr cl
              = reconcileExport d j o cr cl)
    ∧ ((cr.Spec.Schedule = none ∨ cr.Spec.Schedule = some "") →
        reconcileExport d j o cr cl =
          (Outcome.returned (j.reconcileJob cr (reconcileExportSecret d o cr cl).2).1,
            (j.reconcileJob cr (reconcileExportSecret d o cr cl).2).2,
            [Call.reconcileExportSecret, Call.reconcileJob])
        ∧ ∀ other : ArgoCDExport → Client → Option Error × Client,
            reconcileExport d { j with reconcileCronJob := other } o cr cl
              = reconcileExport d j o cr cl)
    ∧ ((∃ s, cr.Spec.Schedule = some s ∧ 0 < strLen s)
        ∨ cr.Spec.Schedule = none ∨ cr.Spec.Schedule = some "")
    ∧ ¬ ((∃ s, cr.Spec.Schedule = some s ∧ 0 < strLen s)
        ∧ (cr.Spec.Schedule = none ∨ cr.Spec.Schedule = some ""))
    ∧ ((reconcileExport d j o cr cl).2.2 = [Call.reconcileExportSecret, Call.reconcileCronJob]
        ↔ ∃ s, cr.Spec.Schedule = some s ∧ 0 < strLen s)
    ∧ ((reconcileExport d j o cr cl).2.2 = [Call.reconcileExportSecret, Call.reconcileJob]
        ↔ cr.Spec.Schedule = none ∨ cr.Spec.Schedule = some "")
    ∧ (reconcileExport d j o cr cl).2.2.count Call.reconcileCronJob
        + (reconcileExport d j o cr cl).2.2.count Call.reconcileJob = 1
    ∧ (∀ (d' : Deps) (j' : JobReconcilers) (o' : Oracle) (cr' : ArgoCDExport) (cl' : Client),
        (reconcileExportSecret d' o' cr' cl').1 = Outcome.returned none →
        cr'.Spec.Schedule = cr.Spec.Schedule →
        (reconcileExport d' j' o' cr' cl').2.2 = (reconcileExport d j o cr cl).2.2) := by
  refine ⟨?_, ?_, ?_, ?_, ?_, ?_, ?_, ?_⟩
  · intro h
    have hs := (hasSchedule_iff cr).2 h
    refine ⟨?_, ?_⟩
    · rw [reconcileExport_after_secret d j o cr cl hsec]
      simp [selectedReconciler, selectedCall, hs]
    · intro other
      rw [reconcileExport_after_secret d j o cr cl hsec,
        reconcileExport_after_secret d _ o cr cl hsec]
      simp [selectedReconciler, selectedCall, hs]
  · intro h
    have hs := (not_hasSchedule_iff cr).2 h
    refine ⟨?_, ?_⟩
    · rw [reconcileExport_after_secret d j o cr cl hsec]
      simp [selectedReconciler, selectedCall, hs]
    · intro other
      rw [reconcileExport_after_secret d j o cr cl hsec,
        reconcileExport_after_secret d _ o cr cl hsec]
      simp [selectedReconciler, selectedCall, hs]
  · rw [← hasSchedule_iff, ← not_hasSchedule_iff]
    cases hasSchedule cr <;> simp
  · rw [← hasSchedule_iff, ← not_hasSchedule_iff]
    cases hasSchedule cr <;> simp
  · rw [reconcileExport_after_secret d j o cr cl hsec, ← hasSchedule_iff]
    by_cases h : hasSchedule cr = true <;> simp [selectedCall, h]
  · rw [reconcileExport_after_secret d j o cr cl hsec, ← not_hasSchedule_iff]
    by_cases h : hasSchedule cr = true <;> simp [selectedCall, h]
  · rw [reconcileExport_after_secret d j o cr cl hsec]
    by_cases h : hasSchedule cr = true <;> simp [selectedCall, h]
  · intro d' j' o' cr' cl' hsec' hsame
    rw [reconcileExport_after_secret d j o cr cl hsec,
      reconcileExport_after_secret d' j' o' cr' cl' hsec']
    have : hasSchedule cr' = hasSchedule cr := by
      unfold hasSchedule
      rw [hsame]
    simp [selectedCall, this]

/-- Witness of C4: the resource `demo` has no schedule, so after the secret is created the
one-shot job reconciler runs, once, on the client the secret step left, and the scheduled
one does not: the store holds the mark of the former and not that of the latter. -/
theorem reconcileExport_mutually_exclusive_witness :
    (reconcileExport sampleDeps markingJobs calmOracle demo emptyClient =
        (Outcome.returned
          (markingJobs.reconcileJob demo
            (reconcileExportSecret sampleDeps calmOracle demo emptyClient).2).1,
          (markingJobs.reconcileJob demo
            (reconcileExportSecret sampleDeps calmOracle demo emptyClient).2).2,
          [Call.reconcileExportSecret, Call.reconcileJob]))
    ∧ ((reconcileExport sampleDeps markingJobs calmOracle demo emptyClient).2.1.store
        "ns1" "job").isSome = true
    ∧ ((reconcileExport sampleDeps markingJobs calmOracle demo emptyClient).2.1.store
        "ns1" "cronjob").isSome = false :=
  ⟨((reconcileExport_mutually_exclusive sampleDeps markingJobs calmOracle demo emptyClient
      (by rfl)).2.1 (Or.inl rfl)).1, by rfl, by rfl⟩

/-- C5. First failure wins: when `reconcileExportSecret` returns an error, `reconcileExport`
returns that error, hands back the client exactly as the secret step left it and has
called nothing else, so that the pass is the same whatever the two job reconcilers are:
neither is invoked; a panic of the secret step likewise ends the pass. When the secret step
succeeds, the outcome and the client of `reconcileExport` are those of the selected job
reconciler applied to the client the secret step left, so an error of that reconciler is
returned as it is; and `reconcileExport` returns `nil` exactly when both the secret step
and the selected reconciler return `nil`. The selected reconciler is `reconcileCronJob`
for a non-nil schedule of positive length and `reconcileJob` otherwise. -/
theorem reconcileExport_first_failure_wins (d : Deps) (j : JobReconcilers) (o : Oracle)
    (cr : ArgoCDExport) (cl : Client) :
    (∀ e, (reconcileExportSecret d o cr cl).1 = Outcome.returned (some e) →
        reconcileExport d j o cr cl =
          (Outcome.returned (some e), (reconcileExportSecret d o cr cl).2,
            [Call.reconcileExportSecret])
        ∧ ∀ j' : JobReconcilers, reconcileExport d j' o cr cl = reconcileExport d j o cr cl)
    ∧ (∀ msg, (reconcileExportSecret d o cr cl).1 = Outcome.panicked msg →
        reconcileExport d j o cr cl =
          (Outcome.panicked msg, (reconcileExportSecret d o cr cl).2,
            [Call.reconcileExportSecret]))
    ∧ ((reconcileExportSecret d o cr cl).1 = Outcome.returned none →
        (reconcileExport d j o cr cl).1
            = Outcome.returned (selectedReconciler j cr cr (reconcileExportSecret d o cr cl).2).1
        ∧ (reconcileExport d j o cr cl).2.1
            = (selectedReconciler j cr cr (reconcileExportSecret d o cr cl).2).2)
    ∧ (∀ e, (reconcileExportSecret d o cr cl).1 = Outcome.returned none →
        (selectedReconciler j cr cr (reconcileExportSecret d o cr cl).2).1 = some e →
        (reconcileExport d j o cr cl).1 = Outcome.returned (some e))
    ∧ ((reconcileExport d j o cr cl).1 = Outcome.returned none ↔
        (reconcileExportSecret d o cr cl).1 = Outcome.returned none
        ∧ (selectedReconciler j cr cr (reconcileExportSecret d o cr cl).2).1 = none)
    ∧ (selectedReconciler j cr = j.reconcileCronJob ∨ selectedReconciler j cr = j.reconcileJob)
    ∧ ((∃ s, cr.Spec.Schedule = some s ∧ 0 < strLen s) →
        selectedReconciler j cr = j.reconcileCronJob)
    ∧ (cr.Spec.Schedule = none ∨ cr.Spec.Schedule = some "" →
        selectedReconciler j cr = j.reconcileJob) := by
  refine ⟨?_, ?_, ?_, ?_, ?_, ?_, ?_, ?_⟩
  · intro e hsec
    refine ⟨reconcileExport_secret_fails d j o cr cl e hsec, ?_⟩
    intro j'
    rw [reconcileExport_secret_fails d j o cr cl e hsec,
      reconcileExport_secret_fails d j' o cr cl e hsec]
  · intro msg hsec
    exact reconcileExport_secret_panics d j o cr cl msg hsec
  · intro hsec
    rw [reconcileExport_after_secret d j o cr cl hsec]
    exact ⟨rfl, rfl⟩
  · intro e hsec hsel
    rw [reconcileExport_after_secret d j o cr cl hsec, hsel]
  · constructor
    · intro h
      rcases hout : (reconcileExportSecret d o cr cl).1 with err | msg
      · cases err with
        | some e =>
          rw [reconcileExport_secret_fails d j o cr cl e hout] at h
          simp at h
        | none =>
          rw [reconcileExport_after_secret d j o cr cl hout] at h
          simp only [Outcome.returned.injEq] at h
          exact ⟨rfl, h⟩
      · rw [reconcileExport_secret_panics d j o cr cl msg hout] at h
        simp at h
    · rintro ⟨hsec, hsel⟩
      rw [reconcileExport_after_secret d j o cr cl hsec, hsel]
  · by_cases h : hasSchedule cr = true <;> simp [selectedReconciler, h]
  · intro h
    simp [selectedReconciler, (hasSchedule_iff cr).2 h]
  · intro h
    simp [selectedReconciler, (not_hasSchedule_iff cr).2 h]

/-- Witness of C5: key generation fails for the resource `demo`, so the pass returns that
error with the client as the secret step left it, and no job reconciler has left its
mark in the store. -/
theorem reconcileExport_first_failure_wins_witness :
    (reconcileExport sampleDeps markingJobs failingKeyOracle demo emptyClient =
        (Outcome.returned (some { msg := "entropy" }),
          (reconcileExportSecret sampleDeps failingKeyOracle demo emptyClient).2,
          [Call.reconcileExportSecret]))
    ∧ ((reconcileExport sampleDeps markingJobs failingKeyOracle demo emptyClient).2.1.store
        "ns1" "job").isSome = false
    ∧ ((reconcileExport sampleDeps markingJobs failingKeyOracle demo emptyClient).2.1.store
        "ns1" "cronjob").isSome = false :=
  ⟨((reconcileExport_first_failure_wins sampleDeps markingJobs failingKeyOracle demo
      emptyClient).1 { msg := "entropy" } (by rfl)).1, by rfl, by rfl⟩

/-- C8. Initial phase: with an empty `Status.Phase`, `validateExport` sets the phase to
`Pending`, issues exactly one status update, carrying that resource, and returns the result
of that update; with any other phase it leaves the resource as it is, issues no write and
returns `nil`. A second `validateExport` on the resulting resource is therefore a
no-op. -/
theorem validateExport_initial_phase (e : Option Error) (cr : ArgoCDExport) :
    (cr.Status.Phase = "" →
        validateExport e cr =
          (e, { cr with Status := { cr.Status with Phase := "Pending" } },
            [{ cr with Status := { cr.Status with Phase := "Pending" } }]))
    ∧ (cr.Status.Phase ≠ "" → validateExport e cr = (none, cr, []))
    ∧ (∀ e2 : Option Error,
        validateExport e2 (validateExport e cr).2.1 = (none, (validateExport e cr).2.1, [])) := by
  refine ⟨validateExport_empty e cr, validateExport_nonempty e cr, ?_⟩
  intro e2
  by_cases h : cr.Status.Phase = ""
  · rw [validateExport_empty e cr h]
    have hp : ("Pending" : String) ≠ "" := by decide
    exact validateExport_nonempty e2
      { cr with Status := { cr.Status with Phase := "Pending" } } hp
  · rw [validateExport_nonempty e cr h]
    exact validateExport_nonempty e2 cr h

/-- Witness of C8: the resource `demo` has an empty phase and becomes `Pending`. -/
theorem validateExport_initial_phase_witness :
    validateExport none demo =
      (none, { demo with Status := { demo.Status with Phase := "Pending" } },
        [{ demo with Status := { demo.Status with Phase := "Pending" } }]) :=
  (validateExport_initial_phase none demo).1 rfl

/-! ## Successive reconciles of the secret -/

theorem patchedData_backupKey (key : Bytes) (cr : ArgoCDExport) (f : String → Option Bytes) :
    patchedData key cr f ArgoCDKeyBackupKey =
      if isMissing (f ArgoCDKeyBackupKey) = true then some key else f ArgoCDKeyBackupKey := by
  simp [patchedData, keys_ne]

theorem patchedData_bucketName (key : Bytes) (cr : ArgoCDExport) (f : String → Option Bytes) :
    patchedData key cr f ArgoCDKeyAWSBucketName =
      if storageIsAWS cr = true ∧ isMissing (f ArgoCDKeyAWSBucketName) = true then
        some (generateAWSBucketName cr)
      else f ArgoCDKeyAWSBucketName := by
  simp [patchedData, Ne.symm keys_ne]

/-- What a successful invocation leaves in the store under the key of the export secret. -/
theorem success_store (d : Deps) (o : Oracle) (cr : ArgoCDExport) (cl cl1 : Client)
    (h : reconcileExportSecret d o cr cl = (Outcome.returned none, cl1)) :
    (cl.store cr.ObjectMeta.Namespace (d.FetchStorageSecretName cr) = none
      ∧ (generateBackupKey d o).2 = none
      ∧ cl1.store cr.ObjectMeta.Namespace (d.FetchStorageSecretName cr) =
          some { OwnerReferences := [{ Name := cr.ObjectMeta.Name, Controller := true }],
                 Data := some (fun k =>
                   if k = ArgoCDKeyBackupKey then some (generateBackupKey d o).1
                   else if k = ArgoCDKeyAWSBucketName then some (bytesOfString cr.ObjectMeta.Name)
                   else none) })
    ∨ (∃ owners f,
        cl.store cr.ObjectMeta.Namespace (d.FetchStorageSecretName cr)
          = some { OwnerReferences := owners, Data := some f }
        ∧ (isMissing (f ArgoCDKeyBackupKey) = true → (generateBackupKey d o).2 = none)
        ∧ cl1.store cr.ObjectMeta.Namespace (d.FetchStorageSecretName cr)
          = some { OwnerReferences := owners,
                   Data := some (patchedData (generateBackupKey d o).1 cr f) }) := by
  cases hst : cl.store cr.ObjectMeta.Namespace (d.FetchStorageSecretName cr) with
  | none =>
    left
    rw [absent_result d o cr cl hst] at h
    cases hg : (generateBackupKey d o).2 with
    | some e => rw [hg] at h; simp at h
    | none =>
      cases hset : o.setControllerReferenceErr with
      | some e => rw [hg, hset] at h; simp at h
      | none =>
        rw [hg, hset] at h
        simp only [Prod.mk.injEq, Outcome.returned.injEq] at h
        obtain ⟨hc, hcl⟩ := h
        rw [hc] at hcl
        subst hcl
        exact ⟨rfl, rfl, by simp [Client.Create, Store.put]⟩
  | some st =>
    right
    obtain ⟨owners, data⟩ := st
    cases data with
    | none =>
      cases hg : (generateBackupKey d o).2 with
      | some e =>
        rw [found_genFails d o cr cl _ e hst rfl hg] at h
        simp at h
      | none =>
        rw [found_nilData d o cr cl owners hst hg] at h
        simp at h
    | some f =>
      refine ⟨owners, f, rfl, ?_⟩
      by_cases hfail : isMissing (f ArgoCDKeyBackupKey) = true
          ∧ (generateBackupKey d o).2 ≠ none
      · obtain ⟨hm, hne⟩ := hfail
        obtain ⟨e, he⟩ := Option.ne_none_iff_exists'.1 hne
        rw [found_genFails d o cr cl _ e hst ((isMissing_iff _).1 hm) he] at h
        simp at h
      · have hg : isMissing (f ArgoCDKeyBackupKey) = true →
            (generateBackupKey d o).2 = none := by
          intro hm
          by_contra hne
          exact hfail ⟨hm, hne⟩
        refine ⟨hg, ?_⟩
        rw [found_data d o cr cl owners f hst hg] at h
        split at h
        · simp only [Prod.mk.injEq, Outcome.returned.injEq] at h
          obtain ⟨hu, hcl⟩ := h
          rw [hu] at hcl
          subst hcl
          simp [Client.Update, Store.put]
        · rename_i hno
          simp only [Prod.mk.injEq, true_and] at h
          subst h
          rw [hst]
          have hpd : patchedData (generateBackupKey d o).1 cr f = f := by
            funext k
            unfold patchedData
            by_cases h1 : k = ArgoCDKeyBackupKey ∧ isMissing (f ArgoCDKeyBackupKey) = true
            · exact absurd (Or.inl h1.2) hno
            · rw [if_neg h1]
              by_cases h2 : k = ArgoCDKeyAWSBucketName ∧ storageIsAWS cr = true
                  ∧ isMissing (f ArgoCDKeyAWSBucketName) = true
              · exact absurd (Or.inr h2.2) hno
              · rw [if_neg h2]
          rw [hpd]

/-- An invocation on a secret that has all it needs returns `nil` and leaves the client as
it is. -/
theorem found_complete (d : Deps) (o : Oracle) (cr : ArgoCDExport) (cl : Client)
    (owners : List OwnerReference) (f : String → Option Bytes)
    (hs : cl.store cr.ObjectMeta.Namespace (d.FetchStorageSecretName cr)
      = some { OwnerReferences := owners, Data := some f })
    (hkey : isMissing (f ArgoCDKeyBackupKey) = false)
    (hbucket : storageIsAWS cr = true → isMissing (f ArgoCDKeyAWSBucketName) = false) :
    reconcileExportSecret d o cr cl = (Outcome.returned none, cl) := by
  rw [found_data d o cr cl owners f hs (by simp [hkey])]
  apply if_neg
  rintro (h | ⟨h1, h2⟩)
  · simp [hkey] at h
  · simp [hbucket h1] at h2

theorem isMissing_bucketName (cr : ArgoCDExport) (h : cr.ObjectMeta.Name ≠ "") :
    isMissing (some (generateAWSBucketName cr)) = false := by
  have : generateAWSBucketName cr ≠ [] := fun h0 => h ((bytesOfString_eq_nil _).1 h0)
  simpa [isMissing] using this

/-- C2. Idempotence: if a call to `reconcileExportSecret` succeeds, then a second call made
right after it, whatever its environment, returns `nil`, issues no write (no `Create` and no
`Update`) and leaves the client, hence the store and the secret in it, exactly as the first
call left them. Two facts of the environment are assumed, which hold for every input the
code receives: `password.Generate`, when it succeeds, yields a password of the configured
positive length, so that the generated key is not empty; and the resource, an object
admitted by the API server, has a non-empty name (used for the AWS backend only). -/
theorem reconcileExportSecret_idempotent (d : Deps) (o1 o2 : Oracle) (cr : ArgoCDExport)
    (cl cl1 : Client)
    (h1 : reconcileExportSecret d o1 cr cl = (Outcome.returned none, cl1))
    (hkey : (generateBackupKey d o1).2 = none → (generateBackupKey d o1).1 ≠ [])
    (hname : storageIsAWS cr = true → cr.ObjectMeta.Name ≠ "") :
    (reconcileExportSecret d o2 cr cl1).1 = Outcome.returned none
    ∧ issued cl1 (reconcileExportSecret d o2 cr cl1).2 = []
    ∧ (reconcileExportSecret d o2 cr cl1).2 = cl1 := by
  have hmain : reconcileExportSecret d o2 cr cl1 = (Outcome.returned none, cl1) := by
    rcases success_store d o1 cr cl cl1 h1 with ⟨_, hg, hst1⟩ | ⟨owners, f, _, hg, hst1⟩
    · apply found_complete d o2 cr cl1 _ _ hst1
      · have := hkey hg
        simpa [isMissing] using this
      · intro haws
        have := isMissing_bucketName cr (hname haws)
        simpa [Ne.symm keys_ne, generateAWSBucketName] using this
    · apply found_complete d o2 cr cl1 _ _ hst1
      · rw [patchedData_backupKey]
        by_cases hm : isMissing (f ArgoCDKeyBackupKey) = true
        · rw [if_pos hm]
          have := hkey (hg hm)
          simpa [isMissing] using this
        · rw [if_neg hm]
          simpa using hm
      · intro haws
        rw [patchedData_bucketName]
        by_cases hm : isMissing (f ArgoCDKeyAWSBucketName) = true
        · rw [if_pos ⟨haws, hm⟩]
          exact isMissing_bucketName cr (hname haws)
        · rw [if_neg (fun h => hm h.2)]
          simpa using hm
  rw [hmain]
  exact ⟨rfl, issued_self cl1, rfl⟩

/-- Witness of C2: the resource `demo` on an empty store, reconciled twice. -/
theorem reconcileExportSecret_idempotent_witness :
    (reconcileExportSecret sampleDeps calmOracle demo
        (reconcileExportSecret sampleDeps calmOracle demo emptyClient).2).1
      = Outcome.returned none
    ∧ issued (reconcileExportSecret sampleDeps calmOracle demo emptyClient).2
        (reconcileExportSecret sampleDeps calmOracle demo
          (reconcileExportSecret sampleDeps calmOracle demo emptyClient).2).2 = []
    ∧ (reconcileExportSecret sampleDeps calmOracle demo
        (reconcileExportSecret sampleDeps calmOracle demo emptyClient).2).2
      = (reconcileExportSecret sampleDeps calmOracle demo emptyClient).2 :=
  reconcileExportSecret_idempotent sampleDeps calmOracle calmOracle demo emptyClient
    (reconcileExportSecret sampleDeps calmOracle demo emptyClient).2
    (by rfl) (fun _ => by decide) (fun _ => by decide)

theorem bucketNameAfter_idem (cr : ArgoCDExport) (before : Option Secret) (s' : Secret)
    (h : s'.Data.entry ArgoCDKeyAWSBucketName = bucketNameAfter cr before) :
    bucketNameAfter cr (some s') = bucketNameAfter cr before := by
  simp only [bucketNameAfter, h]
  cases before with
  | none => simp
  | some s =>
    simp only
    by_cases hc : storageIsAWS cr = true
        ∧ isMissing (s.Data.entry ArgoCDKeyAWSBucketName) = true
    · simp [hc]
    · rw [if_neg hc, if_neg hc]

theorem exportSecret_of_store (d : Deps) (cr : ArgoCDExport) (cl : Client) (st : StoredSecret)
    (h : cl.store cr.ObjectMeta.Namespace (d.FetchStorageSecretName cr) = some st) :
    exportSecret d cr cl =
      some { ObjectMeta := { Name := d.FetchStorageSecretName cr,
                             Namespace := cr.ObjectMeta.Namespace,
                             OwnerReferences := st.OwnerReferences },
             Data := st.Data } := by
  simp only [exportSecret, Store.get, h]

/-- The `awsBucketName` entry after one successful invocation. -/
theorem success_bucketName (d : Deps) (o : Oracle) (cr : ArgoCDExport) (cl cl1 : Client)
    (h : reconcileExportSecret d o cr cl = (Outcome.returned none, cl1)) :
    ∃ s', exportSecret d cr cl1 = some s'
      ∧ s'.Data.entry ArgoCDKeyAWSBucketName = bucketNameAfter cr (exportSecret d cr cl) := by
  rcases success_store d o cr cl cl1 h with ⟨hst, _, hst1⟩ | ⟨owners, f, hst, _, hst1⟩
  · refine ⟨_, exportSecret_of_store d cr cl1 _ hst1, ?_⟩
    simp [exportSecret, Store.get, hst, bucketNameAfter, DataMap.entry, Ne.symm keys_ne,
      generateAWSBucketName]
  · refine ⟨_, exportSecret_of_store d cr cl1 _ hst1, ?_⟩
    simp only [exportSecret, Store.get, hst, bucketNameAfter, DataMap.entry]
    exact patchedData_bucketName _ cr f

theorem repeat_bucketName (d : Deps) (cr : ArgoCDExport) (os : List Oracle) :
    ∀ cl cl' : Client, os ≠ [] → reconcileExportSecretRepeat d cr os cl = some cl' →
      ∃ s', exportSecret d cr cl' = some s'
        ∧ s'.Data.entry ArgoCDKeyAWSBucketName
            = bucketNameAfter cr (exportSecret d cr cl) := by
  induction os with
  | nil => intro cl cl' h; exact absurd rfl h
  | cons o rest ih =>
    intro cl cl' _ h
    rcases hr : reconcileExportSecret d o cr cl with ⟨out, cl1⟩
    have hout : out = Outcome.returned none := by
      rcases out with err | msg
      · cases err with
        | none => rfl
        | some e => simp [reconcileExportSecretRepeat, hr] at h
      · simp [reconcileExportSecretRepeat, hr] at h
    subst hout
    have hrest : reconcileExportSecretRepeat d cr rest cl1 = some cl' := by
      simpa [reconcileExportSecretRepeat, hr] using h
    obtain ⟨s1, hs1, he1⟩ := success_bucketName d o cr cl cl1 hr
    by_cases hnil : rest = []
    · subst hnil
      simp only [reconcileExportSecretRepeat, Option.some.injEq] at hrest
      subst hrest
      exact ⟨s1, hs1, he1⟩
    · obtain ⟨s', hs', he'⟩ := ih cl1 cl' hnil hrest
      refine ⟨s', hs', ?_⟩
      rw [he', hs1]
      exact bucketNameAfter_idem cr _ s1 he1

/-- C3, as amended. After one or more successful calls of `reconcileExportSecret` the export
secret exists, and its `awsBucketName` is the bytes of the name of the resource if the
secret did not exist before the first call (whatever the backend), or if the backend is AWS
and the entry was missing before the first call; in every other case it is exactly the entry
(or the absence of one) the secret had before the first call. So for the AWS backend and a
non-empty name it is populated, and for an absent or other backend the `awsBucketName` of
an already existing secret stays as it was, unset if it was unset. -/
theorem awsBucketName_after_reconciles (d : Deps) (cr : ArgoCDExport) (os : List Oracle)
    (cl cl' : Client) (hos : os ≠ [])
    (h : reconcileExportSecretRepeat d cr os cl = some cl') :
    ∃ s', exportSecret d cr cl' = some s'
      ∧ (exportSecret d cr cl = none →
          s'.Data.entry ArgoCDKeyAWSBucketName = some (bytesOfString cr.ObjectMeta.Name))
      ∧ (∀ s, exportSecret d cr cl = some s → storageIsAWS cr = true →
          isMissing (s.Data.entry ArgoCDKeyAWSBucketName) = true →
          s'.Data.entry ArgoCDKeyAWSBucketName = some (bytesOfString cr.ObjectMeta.Name))
      ∧ (∀ s, exportSecret d cr cl = some s →
          ¬ (storageIsAWS cr = true
              ∧ isMissing (s.Data.entry ArgoCDKeyAWSBucketName) = true) →
          s'.Data.entry ArgoCDKeyAWSBucketName = s.Data.entry ArgoCDKeyAWSBucketName)
      ∧ (storageIsAWS cr = true → cr.ObjectMeta.Name ≠ "" →
          ∃ v, s'.Data.entry ArgoCDKeyAWSBucketName = some v ∧ v ≠ [])
      ∧ (storageIsAWS cr = false → ∀ s, exportSecret d cr cl = some s →
          s'.Data.entry ArgoCDKeyAWSBucketName = s.Data.entry ArgoCDKeyAWSBucketName) := by
  obtain ⟨s', hs', he'⟩ := repeat_bucketName d cr os cl cl' hos h
  refine ⟨s', hs', ?_, ?_, ?_, ?_, ?_⟩
  · intro hnone
    rw [he', hnone]
    rfl
  · intro s hs haws hm
    rw [he', hs]
    simp [bucketNameAfter, haws, hm, generateAWSBucketName]
  · intro s hs hno
    rw [he', hs]
    simp only [bucketNameAfter, if_neg hno]
  · intro haws hname
    have hne : bytesOfString cr.ObjectMeta.Name ≠ [] :=
      fun h0 => hname ((bytesOfString_eq_nil _).1 h0)
    rw [he']
    cases hb : exportSecret d cr cl with
    | none => exact ⟨_, rfl, hne⟩
    | some s =>
      simp only [bucketNameAfter]
      by_cases hm : isMissing (s.Data.entry ArgoCDKeyAWSBucketName) = true
      · rw [if_pos ⟨haws, hm⟩]
        exact ⟨_, rfl, hne⟩
      · rw [if_neg (fun hc => hm hc.2)]
        cases hv : s.Data.entry ArgoCDKeyAWSBucketName with
        | none => rw [hv] at hm; simp [isMissing] at hm
        | some v =>
          refine ⟨v, rfl, ?_⟩
          rw [hv] at hm
          simpa [isMissing] using hm
  · intro haws s hs
    rw [he', hs]
    simp [bucketNameAfter, haws]

/-- Witness of C3: the AWS resource `demo`, whose secret holds a backup key only, reconciled
twice. -/
theorem awsBucketName_after_reconciles_witness :
    ∃ s', exportSecret sampleDeps demoAWS
        (reconcileExportSecret sampleDeps calmOracle demoAWS
          (reconcileExportSecret sampleDeps calmOracle demoAWS
            (clientWith "demo-export" (some keyOnly))).2).2 = some s'
      ∧ s'.Data.entry ArgoCDKeyAWSBucketName = some [100, 101, 109, 111] := by
  obtain ⟨s', hs', _, hmiss, _, _, _⟩ :=
    awsBucketName_after_reconciles sampleDeps demoAWS [calmOracle, calmOracle]
      (clientWith "demo-export" (some keyOnly))
      (reconcileExportSecret sampleDeps calmOracle demoAWS
        (reconcileExportSecret sampleDeps calmOracle demoAWS
          (clientWith "demo-export" (some keyOnly))).2).2
      (by simp) (by rfl)
  refine ⟨s', hs', ?_⟩
  rw [hmiss { ObjectMeta := { Name := "demo-export", Namespace := "ns1",
                              OwnerReferences := [] },
              Data := some keyOnly } (by rfl) (by rfl) (by rfl)]
  decide

/-- C3 as stated fails. The resource `demo` has no storage descriptor and no secret; after
one successful call of `reconcileExportSecret` the `awsBucketName` of its secret holds the
four bytes of `demo`, although the backend is not AWS. -/
theorem awsBucketName_counterexample :
    storageIsAWS demo = false
    ∧ demo.Spec.Storage = none
    ∧ exportSecret sampleDeps demo emptyClient = none
    ∧ ((reconcileExportSecretRepeat sampleDeps demo [calmOracle] emptyClient).bind
        (fun cl => (exportSecret sampleDeps demo cl).map
          (fun s => s.Data.entry ArgoCDKeyAWSBucketName)))
      = some (some [100, 101, 109, 111]) := by
  refine ⟨by rfl, by rfl, by rfl, by rfl⟩

end argocdexport
